import Mathlib

/-!
Verification model of `fdbrpc/AsyncFileBlobStore.actor.h`
(class `AsyncFileBlobStoreWrite`), the write path of a blob-store-backed
virtual file: sequential writes are sliced into multipart-upload parts,
each part is handed to a background upload when it reaches the minimum
part size, and `sync` finalizes the object either with a single
whole-object write (one part) or with a multipart manifest.

The model is a shallow embedding of the session state machine.  Flow
actors execute cooperatively (run-to-completion between waits), so the
publicly observable state evolution of one session is sequential; the
model records every remote Blob Store Endpoint call the session commits
to issuing in an event trace.  The concurrency limiter (`FlowLock
m_concurrentUploads`) is modelled separately as a transition system.
-/

namespace BlobStore

/-- Checksum primitive. The MD5/base64 digest machinery is an external
collaborator of this file (`md5/md5.h`, `libb64/encode.h`); what matters
to the session is only that the digest is a function of exactly the
bytes accumulated in the part, so it is modelled as the (injective)
function returning that byte sequence. -/
def md5sum (bs : List Nat) : List Nat := bs

/-- One object-store part: `struct Part` at lines 60-92 of the source.
`content` stands for the `UnsentPacketQueue`/`PacketWriter` buffer plus
the incremental `MD5_CTX` accumulator (both accumulate exactly the bytes
passed to `Part::write`); `md5string` is empty (`none`) until
`finalizeMD5` caches the digest. -/
structure Part where
  number : Nat
  content : List Nat
  length : Nat
  md5string : Option (List Nat)
deriving DecidableEq, Repr

/-- `Part::write` (lines 74-78): append to the buffer, feed the checksum
accumulator, and bump `length`. -/
def Part.write (p : Part) (buf : List Nat) : Part :=
  { p with content := p.content ++ buf, length := p.length + buf.length }

/-- `Part::finalizeMD5` (lines 80-88): compute and cache the digest once;
a second call is a no-op. -/
def Part.finalizeMD5 (p : Part) : Part :=
  match p.md5string with
  | none => { p with md5string := some (md5sum p.content) }
  | some _ => p

/-- Remote Blob Store Endpoint calls the session can issue (the four
collaborator operations of `BlobStoreEndpoint` used by this file). -/
inductive Event where
  | beginMPU : Event
  | uploadPart (number : Nat) (length : Nat) (checksum : List Nat) : Event
  | finishMPU (manifest : List Nat) : Event
  | writeEntireFile (length : Nat) (checksum : List Nat) : Event
deriving DecidableEq, Repr

/-- Errors surfaced by the write path: `non_sequential_op` (line 119 and
127), `file_not_writable` (line 169), and a remote upload failure
carried by the shared error slot / a part's etag, identified by a code. -/
inductive Err where
  | non_sequential_op : Err
  | file_not_writable : Err
  | remote (code : Nat) : Err
deriving DecidableEq, Repr

/-- State of one `AsyncFileBlobStoreWrite` session (fields at lines
208-218).  `m_parts` is represented as the current (back) part `cur`
plus the previously closed parts `prev`, most recently closed first, so
the vector in order is `prev.reverse ++ [cur]`.  `m_upload_id` models
`m_upload_id.isValid()`, `m_finished` memoizes the finalize result
(`none` = `!m_finished.isValid()`), `m_error` is the shared error slot
(`Promise<Void> m_error`), and `events` is the trace of endpoint calls
issued so far. -/
structure WriteFile where
  minPartSize : Nat
  m_cursor : Int
  cur : Part
  prev : List Part
  m_upload_id : Bool
  m_finished : Option (Except Err Unit)
  m_error : Option Nat
  events : List Event

/-- `m_parts` in vector order (oldest part first, current part last). -/
def partsList (f : WriteFile) : List Part := f.prev.reverse ++ [f.cur]

/-- `getUploadID` (lines 241-245): lazily create the multipart upload id,
issuing `beginMultiPartUpload` exactly on the first call.  Flow actors
run without preemption between waits, so the validity check and the
assignment are atomic. -/
def getUploadID (f : WriteFile) : WriteFile :=
  if f.m_upload_id then f
  else { f with m_upload_id := true, events := f.events ++ [Event.beginMPU] }

/-- `endCurrentPart` (lines 221-239): a no-op when the current part is
empty; otherwise take an upload slot and launch `doPartUpload` (lines
131-136: finalize the checksum, ensure the upload id exists, call
`uploadPart` with the part's number, buffer, length and digest), then,
when `startNew`, push a fresh part numbered `m_parts.size() + 1`.  The
model records the `uploadPart` call at the point the session commits to
it; the limiter handoff is modelled by `Limiter` below. -/
def endCurrentPart (f : WriteFile) (startNew : Bool) : WriteFile :=
  if f.cur.length = 0 then f
  else
    let p := f.cur.finalizeMD5
    let f1 := getUploadID { f with cur := p }
    let f2 := { f1 with
      events := f1.events ++ [Event.uploadPart p.number p.length (p.md5string.getD [])] }
    if startNew then
      { f2 with prev := f2.cur :: f2.prev,
                cur := { number := f2.prev.length + 2, content := [], length := 0,
                         md5string := none } }
    else f2

/-- The while-loop of `write_impl` (lines 99-111), with an explicit
iteration bound: while the write would carry the current part to the
minimum part size, fill the part exactly to the boundary
(`finishlen = minPartSize - cur.length`), roll it over with
`endCurrentPart true`, and continue with the remaining bytes.  Outside
the loop every reachable state has `cur.length < minPartSize` (proved
below as an invariant), and each iteration then consumes
`finishlen ≥ 1` bytes, so `data.length + 1` iterations always suffice;
`fuel` makes that bound explicit so the function is structurally
recursive.  The conjunct `cur.length < minPartSize` in the guard is
what the source loop relies on for `finishlen` to be positive. -/
def writeImplLoop : Nat → WriteFile → List Nat → WriteFile
  | 0, f, data => { f with cur := f.cur.write data }
  | fuel + 1, f, data =>
    if f.minPartSize ≤ f.cur.length + data.length ∧ f.cur.length < f.minPartSize then
      let finishlen := f.minPartSize - f.cur.length
      writeImplLoop fuel
        (endCurrentPart { f with cur := f.cur.write (data.take finishlen) } true)
        (data.drop finishlen)
    else
      { f with cur := f.cur.write data }

/-- `write_impl` (lines 96-115): run the rollover loop, then append the
remaining bytes to the current part. -/
def write_impl (f : WriteFile) (data : List Nat) : WriteFile :=
  writeImplLoop (data.length + 1) f data

/-- `write` (lines 117-123): throw `non_sequential_op` when `offset`
differs from the cursor (leaving the state untouched); otherwise advance
the cursor by `length`, run `write_impl`, and race the result against
the shared error slot: a poisoned session yields the stored failure as
the call's result although `write_impl` still executed. -/
def write (f : WriteFile) (data : List Nat) (offset : Int) :
    WriteFile × Except Err Unit :=
  if offset ≠ f.m_cursor then (f, Except.error Err.non_sequential_op)
  else
    match f.m_error with
    | some e => (write_impl { f with m_cursor := f.m_cursor + (data.length : Int) } data,
                 Except.error (Err.remote e))
    | none => (write_impl { f with m_cursor := f.m_cursor + (data.length : Int) } data,
               Except.ok ())

/-- `doFinishUpload` (lines 138-164), parametrised by the remote outcome
`etagRes n` of the (unique) upload of part `n` (`none` = success, as in
the happy path; `some e` = that part's upload, and hence its etag and
the shared error slot, failed with code `e`).  With a single part the
whole object is written at once; otherwise the last (possibly empty)
part is closed out via `endCurrentPart` without starting a new one, the
etags are awaited in part order — the first failed one propagates its
error — and `finishMultiPartUpload` receives the part numbers of the
nonzero-length parts in increasing order (an empty trailing part is
omitted, line 156; its etag is the trivially ready empty string from
line 62 and cannot fail, hence the `0 < p.length` guard on `etagRes`). -/
def doFinishUpload (f : WriteFile) (etagRes : Nat → Option Nat) :
    WriteFile × Except Err Unit :=
  if f.prev.length = 0 then
    ({ f with
        cur := f.cur.finalizeMD5
        events := f.events ++ [Event.writeEntireFile f.cur.finalizeMD5.length
          (f.cur.finalizeMD5.md5string.getD [])] },
     Except.ok ())
  else
    match ((partsList (endCurrentPart f false)).filterMap
        (fun p => if 0 < p.length then etagRes p.number else none)).head? with
    | some e => (endCurrentPart f false, Except.error (Err.remote e))
    | none =>
      ({ endCurrentPart f false with
          events := (endCurrentPart f false).events ++
            [Event.finishMPU (((partsList (endCurrentPart f false)).filter
              (fun p => 0 < p.length)).map Part.number)] },
       Except.ok ())

/-- `sync` (lines 167-178): throw `file_not_writable` when nothing was
written; start `doFinishUpload` only on the first call, memoizing the
result in `m_finished` and setting the cursor to the sentinel `-1`;
later calls return the memoized result. -/
def sync (f : WriteFile) (etagRes : Nat → Option Nat) :
    WriteFile × Except Err Unit :=
  if f.m_cursor = 0 then (f, Except.error Err.file_not_writable)
  else
    match f.m_finished with
    | some r => (f, r)
    | none =>
      ({ (doFinishUpload f etagRes).1 with
          m_finished := some (doFinishUpload f etagRes).2, m_cursor := -1 },
       (doFinishUpload f etagRes).2)

/-- `size` (line 189): returns `m_cursor`. -/
def size (f : WriteFile) : Int := f.m_cursor

/-- First failure wins on the shared error slot: `joinErrorGroup` (lines
41-50) sends an upload failure to `m_error` only if it `canBeSet()`. -/
def poison (f : WriteFile) (e : Nat) : WriteFile :=
  match f.m_error with
  | some _ => f
  | none => { f with m_error := some e }

/-- Constructor (lines 248-253): cursor 0, one empty part numbered 1, no
upload id, no finalize result, clean error slot. -/
def mkFile (M : Nat) : WriteFile :=
  { minPartSize := M, m_cursor := 0,
    cur := { number := 1, content := [], length := 0, md5string := none },
    prev := [], m_upload_id := false, m_finished := none, m_error := none,
    events := [] }

/-- Issue a list of contiguous writes: each one at the current cursor. -/
def runWrites (f : WriteFile) : List (List Nat) → WriteFile
  | [] => f
  | d :: ds => runWrites (write f d f.m_cursor).1 ds

/-- Total number of bytes in a write sequence. -/
def totalLen (ws : List (List Nat)) : Nat := (ws.map List.length).sum

/-- Public operations of the session, for invariants quantified over
arbitrary call sequences: a write at an arbitrary offset, a sync with an
arbitrary remote outcome, or an upload failure hitting the error slot. -/
inductive Op where
  | wr (data : List Nat) (offset : Int) : Op
  | snc (etagRes : Nat → Option Nat) : Op
  | psn (e : Nat) : Op

/-- Apply one public operation to the session state. -/
def applyOp (f : WriteFile) : Op → WriteFile
  | Op.wr d o => (write f d o).1
  | Op.snc g => (sync f g).1
  | Op.psn e => poison f e

/-- Apply a sequence of public operations. -/
def runOps (f : WriteFile) : List Op → WriteFile
  | [] => f
  | o :: os => runOps (applyOp f o) os

/-- Bytes of the closed parts, oldest first. -/
def closedBytes (f : WriteFile) : List Nat :=
  (f.prev.reverse.map Part.content).flatten

/-- Recognizer for the `beginMultiPartUpload` event. -/
def isBegin : Event → Bool
  | Event.beginMPU => true
  | _ => false

/-- Number of `beginMultiPartUpload` calls in a trace. -/
def beginCount (evs : List Event) : Nat := (evs.filter isBegin).length

/-- The upload concurrency limiter (`FlowLock m_concurrentUploads`, line
218, sized by `concurrent_writes_per_file` at line 249): `limit` permits
in total, `available` free permits, `inFlight` part uploads currently
holding one. -/
structure Limiter where
  limit : Nat
  available : Nat
  inFlight : Nat
deriving DecidableEq, Repr

/-- Limiter transitions, mirroring `endCurrentPart` (lines 226-232): an
upload starts only after `m_concurrentUploads.take()` grants a free
permit, and the `FlowLock::Releaser` held by `holdWhile` for the whole
upload gives the permit back exactly once when the upload resolves —
with success, failure, or cancellation. -/
inductive LimiterStep : Limiter → Limiter → Prop
  | start (s : Limiter) (h : 0 < s.available) :
      LimiterStep s { limit := s.limit, available := s.available - 1,
                      inFlight := s.inFlight + 1 }
  | finish (s : Limiter) (h : 0 < s.inFlight) :
      LimiterStep s { limit := s.limit, available := s.available + 1,
                      inFlight := s.inFlight - 1 }

/-- Fresh limiter: all permits free, nothing in flight. -/
def initLimiter (n : Nat) : Limiter :=
  { limit := n, available := n, inFlight := 0 }

/-- Limiter states reachable from a fresh limiter of `n` permits. -/
inductive LimiterReachable (n : Nat) : Limiter → Prop
  | init : LimiterReachable n (initLimiter n)
  | step {s t : Limiter} : LimiterReachable n s → LimiterStep s t →
      LimiterReachable n t

/-! Basic projection lemmas for the model's operations. -/

theorem Part.write_number (p : Part) (b : List Nat) : (p.write b).number = p.number := rfl

theorem Part.write_length (p : Part) (b : List Nat) :
    (p.write b).length = p.length + b.length := rfl

theorem Part.write_content (p : Part) (b : List Nat) :
    (p.write b).content = p.content ++ b := rfl

theorem Part.write_md5 (p : Part) (b : List Nat) : (p.write b).md5string = p.md5string := rfl

theorem Part.finalizeMD5_number (p : Part) : p.finalizeMD5.number = p.number := by
  cases hp : p.md5string <;> simp [Part.finalizeMD5, hp]

theorem Part.finalizeMD5_length (p : Part) : p.finalizeMD5.length = p.length := by
  cases hp : p.md5string <;> simp [Part.finalizeMD5, hp]

theorem Part.finalizeMD5_content (p : Part) : p.finalizeMD5.content = p.content := by
  cases hp : p.md5string <;> simp [Part.finalizeMD5, hp]

theorem Part.finalizeMD5_md5 (p : Part) (h : p.md5string = none) :
    p.finalizeMD5.md5string = some (md5sum p.content) := by
  simp [Part.finalizeMD5, h]

theorem getUploadID_frame (f : WriteFile) :
    (getUploadID f).cur = f.cur ∧ (getUploadID f).prev = f.prev ∧
    (getUploadID f).m_cursor = f.m_cursor ∧ (getUploadID f).m_error = f.m_error ∧
    (getUploadID f).m_finished = f.m_finished ∧
    (getUploadID f).minPartSize = f.minPartSize := by
  unfold getUploadID; split <;> exact ⟨rfl, rfl, rfl, rfl, rfl, rfl⟩

theorem endCurrentPart_zero (f : WriteFile) (b : Bool) (h : f.cur.length = 0) :
    endCurrentPart f b = f := by
  unfold endCurrentPart; rw [if_pos h]

theorem endCurrentPart_frame (f : WriteFile) (b : Bool) :
    (endCurrentPart f b).m_cursor = f.m_cursor ∧
    (endCurrentPart f b).m_error = f.m_error ∧
    (endCurrentPart f b).m_finished = f.m_finished ∧
    (endCurrentPart f b).minPartSize = f.minPartSize := by
  unfold endCurrentPart
  split
  · exact ⟨rfl, rfl, rfl, rfl⟩
  · split <;> simp [getUploadID] <;> split <;> simp

theorem endCurrentPart_true_parts (f : WriteFile) (h : f.cur.length ≠ 0) :
    (endCurrentPart f true).prev = f.cur.finalizeMD5 :: f.prev ∧
    (endCurrentPart f true).cur =
      { number := f.prev.length + 2, content := [], length := 0, md5string := none } := by
  unfold endCurrentPart
  rw [if_neg h]
  refine ⟨?_, ?_⟩ <;> simp [(getUploadID_frame _).1, (getUploadID_frame _).2.1]

theorem endCurrentPart_false_parts (f : WriteFile) (h : f.cur.length ≠ 0) :
    (endCurrentPart f false).prev = f.prev ∧
    (endCurrentPart f false).cur = f.cur.finalizeMD5 := by
  unfold endCurrentPart
  rw [if_neg h]
  exact ⟨(getUploadID_frame _).2.1, (getUploadID_frame _).1⟩

theorem endCurrentPart_false_events (f : WriteFile) (h : f.cur.length ≠ 0)
    (h5 : f.cur.md5string = none) :
    (endCurrentPart f false).events =
      (getUploadID { f with cur := f.cur.finalizeMD5 }).events ++
        [Event.uploadPart f.cur.number f.cur.length (md5sum f.cur.content)] := by
  unfold endCurrentPart
  rw [if_neg h]
  simp [Part.finalizeMD5_number, Part.finalizeMD5_length, Part.finalizeMD5_md5 _ h5]

theorem writeImplLoop_frame (fuel : Nat) :
    ∀ (f : WriteFile) (data : List Nat),
    (writeImplLoop fuel f data).m_cursor = f.m_cursor ∧
    (writeImplLoop fuel f data).m_error = f.m_error ∧
    (writeImplLoop fuel f data).m_finished = f.m_finished ∧
    (writeImplLoop fuel f data).minPartSize = f.minPartSize := by
  induction fuel with
  | zero => intro f data; exact ⟨rfl, rfl, rfl, rfl⟩
  | succ n ih =>
    intro f data
    unfold writeImplLoop
    split
    · obtain ⟨h1, h2, h3, h4⟩ := ih
        (endCurrentPart { f with cur := f.cur.write (data.take (f.minPartSize - f.cur.length)) } true)
        (data.drop (f.minPartSize - f.cur.length))
      obtain ⟨g1, g2, g3, g4⟩ := endCurrentPart_frame
        { f with cur := f.cur.write (data.take (f.minPartSize - f.cur.length)) } true
      exact ⟨h1.trans g1, h2.trans g2, h3.trans g3, h4.trans g4⟩
    · exact ⟨rfl, rfl, rfl, rfl⟩

theorem write_fst (f : WriteFile) (d : List Nat) :
    (write f d f.m_cursor).1 =
      write_impl { f with m_cursor := f.m_cursor + (d.length : Int) } d := by
  unfold write
  rw [if_neg (by simp)]
  cases f.m_error <;> rfl

/-! Arithmetic helpers about division by the minimum part size. -/

theorem div_mod_add_small {M T n : Nat} (h : T % M + n < M) :
    (T + n) / M = T / M ∧ (T + n) % M = T % M + n := by
  have hM : 0 < M := lt_of_le_of_lt (Nat.zero_le _) h
  have h0 : M * (T / M) + T % M = T := Nat.div_add_mod T M
  have hT : T + n = M * (T / M) + (T % M + n) := by omega
  rw [hT, Nat.mul_add_div hM, Nat.mul_add_mod]
  rw [Nat.div_eq_of_lt h, Nat.mod_eq_of_lt h]
  simp

theorem div_mod_add_fill {M T : Nat} (hM : 0 < M) :
    T + (M - T % M) = M * (T / M + 1) ∧
    (T + (M - T % M)) / M = T / M + 1 ∧ (T + (M - T % M)) % M = 0 := by
  have h0 : M * (T / M) + T % M = T := Nat.div_add_mod T M
  have hr : T % M < M := Nat.mod_lt _ hM
  have hT : T + (M - T % M) = M * (T / M + 1) := by
    have : M * (T / M + 1) = M * (T / M) + M := by ring
    omega
  refine ⟨hT, ?_, ?_⟩
  · rw [hT, Nat.mul_div_cancel_left _ hM]
  · rw [hT, Nat.mul_mod_right]

theorem ceil_div_eq {M T : Nat} (hM : 0 < M) :
    (T + M - 1) / M = T / M + (if T % M = 0 then 0 else 1) := by
  have h0 : M * (T / M) + T % M = T := Nat.div_add_mod T M
  have hr : T % M < M := Nat.mod_lt _ hM
  by_cases h : T % M = 0
  · have hT : T + M - 1 = M * (T / M) + (M - 1) := by omega
    have hd : (M * (T / M) + (M - 1)) / M = T / M + (M - 1) / M := Nat.mul_add_div hM _ _
    have h2 : (M - 1) / M = 0 := Nat.div_eq_of_lt (by omega)
    rw [hT, hd, h2, if_pos h]
  · have hMul : M * (T / M + 1) = M * (T / M) + M := by ring
    have hT : T + M - 1 = M * (T / M + 1) + (T % M - 1) := by omega
    have hd : (M * (T / M + 1) + (T % M - 1)) / M = T / M + 1 + (T % M - 1) / M :=
      Nat.mul_add_div hM _ _
    have h2 : (T % M - 1) / M = 0 := Nat.div_eq_of_lt (by omega)
    rw [hT, hd, h2, if_neg h]

/-- Structural invariant of a session that has accepted a contiguous
sequence of writes totalling `T` bytes (with content `bytes`), before
finalize: the closed parts all have length exactly `minPartSize`, the
current part holds the remainder `T % M`, part numbers are `1..T/M+1` in
order, the buffers hold exactly the bytes written, the current part's
checksum is not yet finalized, and no remote call at all has been issued
while the total stays below the minimum part size. -/
structure Core (M : Nat) (f : WriteFile) (T : Nat) (bytes : List Nat) : Prop where
  msz : f.minPartSize = M
  prevLens : f.prev.map Part.length = List.replicate (T / M) M
  curLen : f.cur.length = T % M
  prevNums : f.prev.reverse.map Part.number = List.range' 1 (T / M)
  curNum : f.cur.number = T / M + 1
  prevConts : ∀ p ∈ f.prev, p.content.length = p.length
  curCont : f.cur.content.length = f.cur.length
  bytesEq : closedBytes f ++ f.cur.content = bytes
  blen : bytes.length = T
  curMd5 : f.cur.md5string = none
  small : T < M → f.events = [] ∧ f.m_upload_id = false

theorem Core.prev_length {M : Nat} {f : WriteFile} {T : Nat} {bytes : List Nat}
    (hC : Core M f T bytes) : f.prev.length = T / M := by
  have h := congrArg List.length hC.prevLens
  simpa using h

theorem core_mkFile (M : Nat) : Core M (mkFile M) 0 [] := by
  refine { msz := rfl, prevLens := ?_, curLen := ?_, prevNums := ?_, curNum := ?_,
           prevConts := ?_, curCont := rfl, bytesEq := rfl, blen := rfl,
           curMd5 := rfl, small := ?_ }
  · simp [mkFile]
  · simp [mkFile]
  · simp [mkFile]
  · simp [mkFile]
  · intro p hp; simp [mkFile] at hp
  · intro _; exact ⟨rfl, rfl⟩

theorem writeImplLoop_core {M : Nat} (hM : 0 < M) :
    ∀ (fuel : Nat) (f : WriteFile) (data : List Nat) (T : Nat) (bytes : List Nat),
    data.length < fuel → Core M f T bytes →
    Core M (writeImplLoop fuel f data) (T + data.length) (bytes ++ data) := by
  intro fuel
  induction fuel with
  | zero => intro f data T bytes hlt; exact absurd hlt (Nat.not_lt_zero _)
  | succ n ih =>
    intro f data T bytes hlt hC
    have hrmod : T % M < M := Nat.mod_lt _ hM
    simp only [writeImplLoop]
    split
    · next h =>
      obtain ⟨hge, hlt2⟩ := h
      rw [hC.msz, hC.curLen] at hge hlt2 ⊢
      have hfl1 : 1 ≤ M - T % M := by omega
      have hfln : M - T % M ≤ data.length := by omega
      obtain ⟨hfill, hdiv2, hmod2⟩ := div_mod_add_fill (T := T) hM
      have hq := hC.prev_length
      -- the filled current part
      have htklen : (data.take (M - T % M)).length = M - T % M := by
        rw [List.length_take]; omega
      have hc1len : (f.cur.write (data.take (M - T % M))).length = M := by
        rw [Part.write_length, hC.curLen, htklen]; omega
      have hne : ({ f with cur := f.cur.write (data.take (M - T % M)) } : WriteFile).cur.length ≠ 0 := by
        show (f.cur.write (data.take (M - T % M))).length ≠ 0
        rw [hc1len]; omega
      obtain ⟨hgprev, hgcur⟩ := endCurrentPart_true_parts _ hne
      obtain ⟨_, _, _, hgmsz⟩ :=
        endCurrentPart_frame { f with cur := f.cur.write (data.take (M - T % M)) } true
      -- invariant after the rollover, at total T + finishlen
      have hCore2 : Core M
          (endCurrentPart { f with cur := f.cur.write (data.take (M - T % M)) } true)
          (T + (M - T % M)) (bytes ++ data.take (M - T % M)) := by
        refine { msz := ?_, prevLens := ?_, curLen := ?_, prevNums := ?_, curNum := ?_,
                 prevConts := ?_, curCont := ?_, bytesEq := ?_, blen := ?_,
                 curMd5 := ?_, small := ?_ }
        · rw [hgmsz]; exact hC.msz
        · rw [hgprev, hdiv2]
          simp only [List.map_cons, Part.finalizeMD5_length, hc1len, List.replicate_succ]
          rw [hC.prevLens]
        · rw [hgcur, hmod2]
        · rw [hgprev, hdiv2, List.reverse_cons, List.map_append, hC.prevNums]
          simp only [List.map_cons, List.map_nil, Part.finalizeMD5_number, Part.write_number,
            hC.curNum]
          rw [List.range'_concat]
          simp [Nat.add_comm]
        · rw [hgcur, hdiv2]
          simp [hq]
        · intro p hp
          rw [hgprev] at hp
          rcases List.mem_cons.mp hp with hp | hp
          · subst hp
            rw [Part.finalizeMD5_content, Part.finalizeMD5_length, Part.write_content,
              Part.write_length, List.length_append, hC.curCont]
          · exact hC.prevConts p hp
        · rw [hgcur]; rfl
        · rw [hgcur]
          simp only [List.append_nil]
          unfold closedBytes
          rw [hgprev, List.reverse_cons, List.map_append, List.flatten_append]
          simp only [List.map_cons, List.map_nil, Part.finalizeMD5_content, Part.write_content,
            List.flatten_cons, List.flatten_nil, List.append_nil]
          rw [← List.append_assoc]
          have : (f.prev.reverse.map Part.content).flatten ++ f.cur.content = bytes :=
            hC.bytesEq
          rw [show (f.prev.reverse.map Part.content).flatten ++ f.cur.content ++
                data.take (M - T % M) = bytes ++ data.take (M - T % M) by rw [this]]
        · rw [List.length_append, hC.blen, htklen]
        · rw [hgcur]
        · intro hsm
          exfalso
          have : M ≤ T + (M - T % M) := by
            rw [hfill]
            calc M = M * 1 := by ring
            _ ≤ M * (T / M + 1) := Nat.mul_le_mul_left M (by omega)
          omega
      have hrec := ih _ (data.drop (M - T % M)) (T + (M - T % M))
        (bytes ++ data.take (M - T % M))
        (by rw [List.length_drop]; omega) hCore2
      have hT : T + (M - T % M) + (data.drop (M - T % M)).length = T + data.length := by
        rw [List.length_drop]; omega
      have hB : bytes ++ data.take (M - T % M) ++ data.drop (M - T % M) = bytes ++ data := by
        rw [List.append_assoc, List.take_append_drop]
      rw [hT, hB] at hrec
      rw [hC.msz] at hrec
      exact hrec
    · next h =>
      have hsm : T % M + data.length < M := by
        rcases Decidable.not_and_iff_or_not.mp h with h1 | h1
        · rw [hC.msz, hC.curLen] at h1; omega
        · exfalso; rw [hC.msz, hC.curLen] at h1; omega
      obtain ⟨hdiv, hmod⟩ := div_mod_add_small hsm
      refine { msz := hC.msz, prevLens := ?_, curLen := ?_, prevNums := ?_, curNum := ?_,
               prevConts := hC.prevConts, curCont := ?_, bytesEq := ?_, blen := ?_,
               curMd5 := hC.curMd5, small := ?_ }
      · rw [hdiv]; exact hC.prevLens
      · rw [hmod, Part.write_length, hC.curLen]
      · rw [hdiv]; exact hC.prevNums
      · rw [hdiv, Part.write_number]; exact hC.curNum
      · rw [Part.write_content, Part.write_length, List.length_append, hC.curCont]
      · show closedBytes f ++ (f.cur.content ++ data) = bytes ++ data
        rw [← List.append_assoc, hC.bytesEq]
      · rw [List.length_append, hC.blen]
      · intro hsm2
        exact hC.small (by omega)

theorem write_impl_core {M : Nat} (hM : 0 < M) {f : WriteFile} {T : Nat}
    {bytes : List Nat} (hC : Core M f T bytes) (data : List Nat) :
    Core M (write_impl f data) (T + data.length) (bytes ++ data) :=
  writeImplLoop_core hM (data.length + 1) f data T bytes (Nat.lt_succ_self _) hC

theorem write_impl_frame (f : WriteFile) (data : List Nat) :
    (write_impl f data).m_cursor = f.m_cursor ∧
    (write_impl f data).m_error = f.m_error ∧
    (write_impl f data).m_finished = f.m_finished ∧
    (write_impl f data).minPartSize = f.minPartSize :=
  writeImplLoop_frame (data.length + 1) f data

theorem core_set_cursor {M : Nat} {f : WriteFile} {T : Nat} {bytes : List Nat}
    (x : Int) (hC : Core M f T bytes) : Core M { f with m_cursor := x } T bytes :=
  { msz := hC.msz, prevLens := hC.prevLens, curLen := hC.curLen,
    prevNums := hC.prevNums, curNum := hC.curNum, prevConts := hC.prevConts,
    curCont := hC.curCont, bytesEq := hC.bytesEq, blen := hC.blen,
    curMd5 := hC.curMd5, small := hC.small }

theorem runWrites_state {M : Nat} (hM : 0 < M) :
    ∀ (ws : List (List Nat)) (f : WriteFile) (T : Nat) (bytes : List Nat),
    Core M f T bytes → f.m_cursor = (T : Int) →
    Core M (runWrites f ws) (T + totalLen ws) (bytes ++ ws.flatten) ∧
    (runWrites f ws).m_cursor = ((T + totalLen ws : Nat) : Int) ∧
    (runWrites f ws).m_error = f.m_error ∧
    (runWrites f ws).m_finished = f.m_finished := by
  intro ws
  induction ws with
  | nil =>
    intro f T bytes hC hcur
    refine ⟨?_, ?_, rfl, rfl⟩
    · simpa [runWrites, totalLen] using hC
    · simpa [runWrites, totalLen] using hcur
  | cons d ds ih =>
    intro f T bytes hC hcur
    rw [runWrites, write_fst]
    have hC1 : Core M (write_impl { f with m_cursor := f.m_cursor + (d.length : Int) } d)
        (T + d.length) (bytes ++ d) :=
      write_impl_core hM (core_set_cursor _ hC) d
    have hcur1 : (write_impl { f with m_cursor := f.m_cursor + (d.length : Int) } d).m_cursor
        = ((T + d.length : Nat) : Int) := by
      rw [(write_impl_frame _ _).1]
      show f.m_cursor + (d.length : Int) = _
      rw [hcur]
      push_cast
      ring
    obtain ⟨hA, hB, hE, hF⟩ := ih _ (T + d.length) (bytes ++ d) hC1 hcur1
    have hTot : T + d.length + totalLen ds = T + totalLen (d :: ds) := by
      simp [totalLen]; ring
    have hBy : bytes ++ d ++ ds.flatten = bytes ++ (d :: ds).flatten := by
      rw [List.flatten_cons, List.append_assoc]
    rw [hTot, hBy] at hA
    rw [hTot] at hB
    refine ⟨hA, hB, ?_, ?_⟩
    · rw [hE, (write_impl_frame _ _).2.1]
    · rw [hF, (write_impl_frame _ _).2.2.1]

/-- Master invariant: after any contiguous write sequence `ws` on a fresh
session, the parts structure is determined by `totalLen ws` alone, the
cursor equals the total, and the error slot and finalize memo are clean. -/
theorem runWrites_good (M : Nat) (ws : List (List Nat)) (hM : 0 < M) :
    Core M (runWrites (mkFile M) ws) (totalLen ws) ws.flatten ∧
    (runWrites (mkFile M) ws).m_cursor = (totalLen ws : Int) ∧
    (runWrites (mkFile M) ws).m_error = none ∧
    (runWrites (mkFile M) ws).m_finished = none := by
  have h := runWrites_state hM ws (mkFile M) 0 [] (core_mkFile M) rfl
  simpa using h

/-- The full parts vector's lengths under the master invariant. -/
theorem Core.partsLens {M : Nat} {f : WriteFile} {T : Nat} {bytes : List Nat}
    (hC : Core M f T bytes) :
    (partsList f).map Part.length = List.replicate (T / M) M ++ [T % M] := by
  unfold partsList
  rw [List.map_append, List.map_reverse, hC.prevLens, List.reverse_replicate]
  simp [hC.curLen]

/-- The full parts vector's numbers under the master invariant. -/
theorem Core.partsNums {M : Nat} {f : WriteFile} {T : Nat} {bytes : List Nat}
    (hC : Core M f T bytes) :
    (partsList f).map Part.number = List.range' 1 (T / M + 1) := by
  unfold partsList
  rw [List.map_append, hC.prevNums, List.range'_concat]
  simp [hC.curNum, Nat.add_comm]

/-! Claim theorems. -/

/-- C3: a `write(data, length, offset)` call fails with the sequencing
error `non_sequential_op` if and only if `offset` differs from the
current cursor, and in the failing case the session state — cursor, part
list and all part buffers — is exactly as before the call. -/
theorem write_nonsequential_iff (f : WriteFile) (data : List Nat) (offset : Int) :
    ((write f data offset).2 = Except.error Err.non_sequential_op ↔ offset ≠ f.m_cursor) ∧
    (offset ≠ f.m_cursor → write f data offset = (f, Except.error Err.non_sequential_op)) := by
  unfold write
  by_cases h : offset = f.m_cursor
  · rw [if_neg (not_not_intro h)]
    refine ⟨?_, fun hco => absurd h hco⟩
    cases hm : f.m_error <;> simp [hm, h]
  · rw [if_pos h]
    exact ⟨by simpa using h, fun _ => rfl⟩

/-- C3 witness: on a fresh session (cursor 0), a write at offset 3 fails
with the sequencing error and returns the state unchanged. -/
theorem write_nonsequential_iff_witness :
    write (mkFile 5) [1] 3 = (mkFile 5, Except.error Err.non_sequential_op) :=
  (write_nonsequential_iff (mkFile 5) [1] 3).2 (by decide)

/-- C10: at every point between public operations before finalize (that
is, after any contiguous write sequence), with a positive minimum part
size, the current (last) part's length is the remainder of the total
modulo the minimum part size, hence strictly below the minimum part
size: a part reaching the minimum is always closed before more bytes
are accepted. -/
theorem current_part_below_min (M : Nat) (ws : List (List Nat)) (hM : 0 < M) :
    (runWrites (mkFile M) ws).cur.length = totalLen ws % M ∧
    (runWrites (mkFile M) ws).cur.length < M := by
  obtain ⟨hC, -, -, -⟩ := runWrites_good M ws hM
  exact ⟨hC.curLen, by rw [hC.curLen]; exact Nat.mod_lt _ hM⟩

/-- C10 witness at minimum part size 4 after writes of 2 and 1 bytes. -/
theorem current_part_below_min_witness :
    (runWrites (mkFile 4) [[1, 2], [3]]).cur.length = totalLen [[1, 2], [3]] % 4 ∧
    (runWrites (mkFile 4) [[1, 2], [3]]).cur.length < 4 :=
  current_part_below_min 4 [[1, 2], [3]] (by decide)

/-- C9 counterexample: after writing one byte and calling `sync`, `size`
returns the sentinel `-1`, not the 1 byte written so far — refuting the
claim that `size` returns the logical byte count at every point
including after `sync`. -/
theorem size_after_sync_is_sentinel :
    size (sync (runWrites (mkFile 3) [[7]]) (fun _ => none)).1 = -1 ∧
    totalLen [[7]] = 1 :=
  ⟨rfl, rfl⟩

/-- C9 amended: on the write side `size` returns the cursor, which
equals the sum of the lengths of all accepted writes at every point
before `sync`; once `sync` has been called the cursor holds the closed
sentinel `-1` and `size` returns that sentinel instead. -/
theorem size_tracks_cursor_amended (M : Nat) (ws : List (List Nat))
    (et : Nat → Option Nat) (hM : 0 < M) :
    size (runWrites (mkFile M) ws) = (totalLen ws : Int) ∧
    (0 < totalLen ws → size (sync (runWrites (mkFile M) ws) et).1 = -1) := by
  obtain ⟨hC, hcur, herr, hfin⟩ := runWrites_good M ws hM
  refine ⟨hcur, ?_⟩
  intro hT
  have hc0 : ¬ (runWrites (mkFile M) ws).m_cursor = 0 := by
    rw [hcur]
    exact_mod_cast Nat.pos_iff_ne_zero.mp hT
  unfold sync
  rw [if_neg hc0, hfin]
  rfl

/-- C9 amended witness: two bytes written, then sync. -/
theorem size_tracks_cursor_amended_witness :
    size (runWrites (mkFile 3) [[7, 8]]) = (totalLen [[7, 8]] : Int) ∧
    (0 < totalLen [[7, 8]] →
      size (sync (runWrites (mkFile 3) [[7, 8]]) (fun _ => none)).1 = -1) :=
  size_tracks_cursor_amended 3 [[7, 8]] (fun _ => none) (by decide)

/-- C4 counterexample: with minimum part size 2, a single 5-byte write
on a fresh session closes two parts (the closed-part count goes from 0
to 2 in one call), refuting the claim that at most one part rollover
boundary is crossed per write call. -/
theorem write_can_close_two_parts :
    (mkFile 2).prev.length = 0 ∧
    ((write (mkFile 2) [0, 0, 0, 0, 0] 0).1).prev.length = 2 :=
  ⟨rfl, rfl⟩

/-- C4 amended: a write call closes one part per minimum-part-size
boundary crossed, so after contiguous writes totalling `T` bytes the
closed-part count is `T / M` and a single call may close several parts;
every non-final (closed) part still ends with length exactly — hence at
least — the minimum part size. -/
theorem rollover_per_boundary (M : Nat) (ws : List (List Nat)) (d : List Nat)
    (hM : 0 < M) :
    (runWrites (mkFile M) ws).prev.length = totalLen ws / M ∧
    (write (runWrites (mkFile M) ws) d (runWrites (mkFile M) ws).m_cursor).1.prev.length
      = (totalLen ws + d.length) / M ∧
    (∀ p ∈ (write (runWrites (mkFile M) ws) d
        (runWrites (mkFile M) ws).m_cursor).1.prev, p.length = M) := by
  obtain ⟨hC, hcur, herr, hfin⟩ := runWrites_good M ws hM
  have hC2 : Core M (write_impl { runWrites (mkFile M) ws with
      m_cursor := (runWrites (mkFile M) ws).m_cursor + (d.length : Int) } d)
      (totalLen ws + d.length) (ws.flatten ++ d) :=
    write_impl_core hM (core_set_cursor _ hC) d
  rw [write_fst]
  refine ⟨hC.prev_length, hC2.prev_length, ?_⟩
  intro p hp
  have hmem : p.length ∈ (write_impl { runWrites (mkFile M) ws with
      m_cursor := (runWrites (mkFile M) ws).m_cursor + (d.length : Int) } d).prev.map
      Part.length := List.mem_map_of_mem Part.length hp
  rw [hC2.prevLens] at hmem
  exact List.eq_of_mem_replicate hmem

/-- C4 amended witness: minimum part size 2, one byte then a 3-byte
write: one part closed before, two parts closed after. -/
theorem rollover_per_boundary_witness :
    (runWrites (mkFile 2) [[1]]).prev.length = totalLen [[1]] / 2 ∧
    (write (runWrites (mkFile 2) [[1]]) [2, 3, 4]
        (runWrites (mkFile 2) [[1]]).m_cursor).1.prev.length
      = (totalLen [[1]] + [2, 3, 4].length) / 2 ∧
    (∀ p ∈ (write (runWrites (mkFile 2) [[1]]) [2, 3, 4]
        (runWrites (mkFile 2) [[1]]).m_cursor).1.prev, p.length = 2) :=
  rollover_per_boundary 2 [[1]] [2, 3, 4] (by decide)

/-- Every reachable limiter state keeps the full permit count: free
permits plus in-flight uploads account for exactly the configured
limit. -/
theorem limiter_invariant {n : Nat} : ∀ {s : Limiter}, LimiterReachable n s →
    s.limit = n ∧ s.available + s.inFlight = n := by
  intro s h
  induction h with
  | init => exact ⟨rfl, by simp [initLimiter]⟩
  | step hr hs ih =>
    cases hs with
    | start h => exact ⟨ih.1, by have := ih.2; simp at this ⊢; omega⟩
    | finish h => exact ⟨ih.1, by have := ih.2; simp at this ⊢; omega⟩

/-- C8: for any configured limit of at least 1 and any reachable limiter
state (any pattern of upload starts and completions, each start gated by
`take` and each completion releasing its slot exactly once), the number
of part uploads in flight never exceeds the configured limit. -/
theorem limiter_bounds_in_flight (n : Nat) (s : Limiter) (_hn : 1 ≤ n)
    (hr : LimiterReachable n s) : s.inFlight ≤ n := by
  have h := limiter_invariant hr
  omega

/-- C8 witness: with limit 1, the state after one upload start has one
upload in flight, within the bound. -/
theorem limiter_bounds_in_flight_witness :
    1 ≤ 1 ∧ ({ limit := 1, available := 0, inFlight := 1 } : Limiter).inFlight ≤ 1 :=
  ⟨by decide,
   limiter_bounds_in_flight 1 { limit := 1, available := 0, inFlight := 1 } (by decide)
     (LimiterReachable.step LimiterReachable.init
       (LimiterStep.start (initLimiter 1) (by decide)))⟩

/-- C5 counterexample: after `sync`, a write presenting the sentinel
offset `-1` matches the cursor check and succeeds — refuting the claim
that the sentinel makes every subsequent write call fail. -/
theorem write_after_sync_at_sentinel_succeeds :
    (sync (runWrites (mkFile 3) [[1]]) (fun _ => none)).1.m_finished.isSome = true ∧
    (write (sync (runWrites (mkFile 3) [[1]]) (fun _ => none)).1 [9] (-1)).2
      = Except.ok () :=
  ⟨rfl, rfl⟩

/-- C5 amended: the first `sync` call starts the finalize operation
exactly once, memoizes its result, and sets the cursor to the sentinel
`-1`, so every subsequent write at a nonnegative offset (every valid
file offset) fails with the sequencing error; every later `sync` call
returns the same state and result without re-running the finalize
protocol, whatever the remote would answer the second time.  Only a
write presenting the sentinel offset `-1` itself would slip past the
cursor check. -/
theorem sync_idempotent_amended (f : WriteFile) (et et2 : Nat → Option Nat)
    (d : List Nat) (o : Int) (h0 : f.m_cursor ≠ 0) (hf : f.m_finished = none)
    (ho : 0 ≤ o) :
    sync (sync f et).1 et2 = ((sync f et).1, (sync f et).2) ∧
    (write (sync f et).1 d o).2 = Except.error Err.non_sequential_op ∧
    (sync f et).1.m_finished = some (sync f et).2 ∧
    (sync f et).1.m_cursor = -1 := by
  have hs : sync f et = ({ (doFinishUpload f et).1 with
      m_finished := some (doFinishUpload f et).2, m_cursor := -1 },
      (doFinishUpload f et).2) := by
    unfold sync
    rw [if_neg h0, hf]
  rw [hs]
  have hm1 : (({ (doFinishUpload f et).1 with
      m_finished := some (doFinishUpload f et).2, m_cursor := -1 } : WriteFile),
      (doFinishUpload f et).2).1.m_cursor = -1 := rfl
  refine ⟨?_, ?_, rfl, rfl⟩
  · unfold sync
    rw [if_neg (by rw [hm1]; decide)]
  · unfold write
    rw [if_pos ?hne]
    case hne =>
      rw [hm1]
      omega

/-- C5 amended witness: write one byte, sync, then observe that a second
sync (with a different remote behavior) is a no-op and a write at
offset 0 fails. -/
theorem sync_idempotent_amended_witness :
    sync (sync (runWrites (mkFile 3) [[1]]) (fun _ => none)).1 (fun _ => some 1)
      = ((sync (runWrites (mkFile 3) [[1]]) (fun _ => none)).1,
         (sync (runWrites (mkFile 3) [[1]]) (fun _ => none)).2) ∧
    (write (sync (runWrites (mkFile 3) [[1]]) (fun _ => none)).1 [9] 0).2
      = Except.error Err.non_sequential_op ∧
    (sync (runWrites (mkFile 3) [[1]]) (fun _ => none)).1.m_finished
      = some (sync (runWrites (mkFile 3) [[1]]) (fun _ => none)).2 ∧
    (sync (runWrites (mkFile 3) [[1]]) (fun _ => none)).1.m_cursor = -1 :=
  sync_idempotent_amended (runWrites (mkFile 3) [[1]]) (fun _ => none)
    (fun _ => some 1) [9] 0 (by decide) rfl (by decide)

/-- C2: for every contiguous write sequence with nonzero total length
below the minimum part size (so exactly one part exists), `sync` issues
exactly one remote call in the whole session life — a whole-object write
whose length is the total bytes written and whose checksum digests
exactly those bytes — and never opens a multipart session: the trace
contains no `beginMultiPartUpload` (indeed nothing else at all) and the
upload id was never created.  The remote part-outcome environment is
irrelevant because no part upload exists. -/
theorem small_file_single_whole_object_write (M : Nat) (ws : List (List Nat))
    (et : Nat → Option Nat) (hM : 0 < M) (h0 : 0 < totalLen ws)
    (hT : totalLen ws < M) :
    (sync (runWrites (mkFile M) ws) et).1.events
      = [Event.writeEntireFile (totalLen ws) (md5sum ws.flatten)] ∧
    (sync (runWrites (mkFile M) ws) et).1.m_upload_id = false ∧
    (sync (runWrites (mkFile M) ws) et).2 = Except.ok () := by
  obtain ⟨hC, hcur, herr, hfin⟩ := runWrites_good M ws hM
  have hq0 : totalLen ws / M = 0 := Nat.div_eq_of_lt hT
  have hprevnil : (runWrites (mkFile M) ws).prev.length = 0 := by
    rw [hC.prev_length, hq0]
  have hsm := hC.small hT
  have hcl : (runWrites (mkFile M) ws).cur.length = totalLen ws := by
    rw [hC.curLen, Nat.mod_eq_of_lt hT]
  have hcc : (runWrites (mkFile M) ws).cur.content = ws.flatten := by
    have hb := hC.bytesEq
    unfold closedBytes at hb
    rw [List.length_eq_zero.mp hprevnil] at hb
    simpa using hb
  have hc0 : ¬ (runWrites (mkFile M) ws).m_cursor = 0 := by
    rw [hcur]
    exact_mod_cast Nat.pos_iff_ne_zero.mp h0
  have hdf : doFinishUpload (runWrites (mkFile M) ws) et
      = ({ runWrites (mkFile M) ws with
            cur := (runWrites (mkFile M) ws).cur.finalizeMD5
            events := (runWrites (mkFile M) ws).events ++
              [Event.writeEntireFile (totalLen ws) (md5sum ws.flatten)] },
         Except.ok ()) := by
    unfold doFinishUpload
    rw [if_pos hprevnil, Part.finalizeMD5_length,
      Part.finalizeMD5_md5 _ hC.curMd5, hcl, hcc, Option.getD_some]
  have hsync : sync (runWrites (mkFile M) ws) et
      = ({ (doFinishUpload (runWrites (mkFile M) ws) et).1 with
          m_finished := some (doFinishUpload (runWrites (mkFile M) ws) et).2,
          m_cursor := -1 },
         (doFinishUpload (runWrites (mkFile M) ws) et).2) := by
    unfold sync
    rw [if_neg hc0, hfin]
  rw [hsync, hdf]
  refine ⟨?_, ?_, rfl⟩
  · show (runWrites (mkFile M) ws).events ++
      [Event.writeEntireFile (totalLen ws) (md5sum ws.flatten)] = _
    rw [hsm.1]
    rfl
  · show (runWrites (mkFile M) ws).m_upload_id = false
    exact hsm.2

/-- C2 witness: minimum part size 5, writes of 1 then 2 bytes; the
whole trace is one whole-object write of 3 bytes with the digest of
those bytes, even under a remote environment that would fail any part
upload. -/
theorem small_file_single_whole_object_write_witness :
    (sync (runWrites (mkFile 5) [[1], [2, 3]]) (fun _ => some 9)).1.events
      = [Event.writeEntireFile (totalLen [[1], [2, 3]])
          (md5sum ([[1], [2, 3]] : List (List Nat)).flatten)] ∧
    (sync (runWrites (mkFile 5) [[1], [2, 3]]) (fun _ => some 9)).1.m_upload_id
      = false ∧
    (sync (runWrites (mkFile 5) [[1], [2, 3]]) (fun _ => some 9)).2 = Except.ok () :=
  small_file_single_whole_object_write 5 [[1], [2, 3]] (fun _ => some 9)
    (by decide) (by decide) (by decide)

/-- C6 counterexample: minimum part size 4, one 6-byte write (part 1
uploaded, part 2 holds 2 bytes), then part 1's upload fails and poisons
the session.  The subsequent first `sync` does return the failure, but
it first closes out the final part and issues its `uploadPart` call — a
new remote network call after poisoning — refuting the claim that a
poisoned session performs no further network activity. -/
theorem poisoned_sync_issues_upload :
    (sync (poison (runWrites (mkFile 4) [[1, 2, 3, 4, 5, 6]]) 7)
        (fun n => if n = 1 then some 7 else none)).2 = Except.error (Err.remote 7) ∧
    (sync (poison (runWrites (mkFile 4) [[1, 2, 3, 4, 5, 6]]) 7)
        (fun n => if n = 1 then some 7 else none)).1.events
      = (poison (runWrites (mkFile 4) [[1, 2, 3, 4, 5, 6]]) 7).events ++
          [Event.uploadPart 2 2 (md5sum [5, 6])] ∧
    (poison (runWrites (mkFile 4) [[1, 2, 3, 4, 5, 6]]) 7).events.length = 2 :=
  ⟨rfl, rfl, rfl⟩

/-- C6 amended: once the session is poisoned (the shared error slot
holds the first part-upload failure), no subsequent `write` ever
succeeds; a write at the correct offset returns exactly the stored
failure, and the first `sync` fails with the first failed part's error —
but the session is not prevented from issuing further network calls
first (see the counterexample: the final part's upload is still
launched during `sync` before the failure surfaces). -/
theorem poisoned_calls_fail_amended (f : WriteFile) (e : Nat) (d : List Nat)
    (o : Int) (et : Nat → Option Nat) (hp : f.m_error = some e) :
    (∀ o2 : Int, (write f d o2).2 ≠ Except.ok ()) ∧
    (o = f.m_cursor → (write f d o).2 = Except.error (Err.remote e)) ∧
    (f.m_finished = none → f.m_cursor ≠ 0 → f.prev.length ≠ 0 →
      ∀ e2 : Nat, (((partsList (endCurrentPart f false)).filterMap
          (fun p => if 0 < p.length then et p.number else none)).head? = some e2 →
        (sync f et).2 = Except.error (Err.remote e2))) := by
  refine ⟨?_, ?_, ?_⟩
  · intro o2
    unfold write
    split
    · intro h; cases h
    · rw [hp]
      intro h; cases h
  · intro ho
    unfold write
    rw [if_neg (not_not_intro ho), hp]
  · intro hfin hc0 hprev e2 hhead
    unfold sync
    rw [if_neg hc0, hfin]
    show (doFinishUpload f et).2 = _
    unfold doFinishUpload
    rw [if_neg hprev, hhead]

/-- C6 amended witness: the poisoned two-part session from the
counterexample; a correctly-offset write returns the stored error and
sync fails with part 1's error. -/
theorem poisoned_calls_fail_amended_witness :
    (write (poison (runWrites (mkFile 4) [[1, 2, 3, 4, 5, 6]]) 7) [9] 6).2
      = Except.error (Err.remote 7) ∧
    (sync (poison (runWrites (mkFile 4) [[1, 2, 3, 4, 5, 6]]) 7)
        (fun n => if n = 1 then some 7 else none)).2 = Except.error (Err.remote 7) :=
  ⟨(poisoned_calls_fail_amended (poison (runWrites (mkFile 4) [[1, 2, 3, 4, 5, 6]]) 7)
      7 [9] 6 (fun n => if n = 1 then some 7 else none) rfl).2.1 (by decide),
   (poisoned_calls_fail_amended (poison (runWrites (mkFile 4) [[1, 2, 3, 4, 5, 6]]) 7)
      7 [9] 6 (fun n => if n = 1 then some 7 else none) rfl).2.2 rfl (by decide)
      (by decide) 7 rfl⟩

theorem beginCount_append (a b : List Event) :
    beginCount (a ++ b) = beginCount a + beginCount b := by
  unfold beginCount
  rw [List.filter_append, List.length_append]

/-- Invariant tying the trace to the memoized upload id: the session has
issued one `beginMultiPartUpload` call if `m_upload_id` is valid and
none otherwise. -/
def EvInv (f : WriteFile) : Prop :=
  beginCount f.events = (if f.m_upload_id then 1 else 0)

theorem evInv_getUploadID {f : WriteFile} (h : EvInv f) : EvInv (getUploadID f) := by
  unfold EvInv at h ⊢
  unfold getUploadID
  split
  · next hid => rw [h, if_pos hid]
  · next hid =>
    have hid2 : f.m_upload_id = false := Bool.not_eq_true _ ▸ Bool.of_not_eq_true hid
    show beginCount (f.events ++ [Event.beginMPU]) = (if true then 1 else 0)
    rw [beginCount_append, h, hid2]
    rfl

theorem endCurrentPart_ev (f : WriteFile) (b : Bool) (h : f.cur.length ≠ 0) :
    (endCurrentPart f b).events
      = (getUploadID { f with cur := f.cur.finalizeMD5 }).events ++
        [Event.uploadPart f.cur.finalizeMD5.number f.cur.finalizeMD5.length
          (f.cur.finalizeMD5.md5string.getD [])] ∧
    (endCurrentPart f b).m_upload_id
      = (getUploadID { f with cur := f.cur.finalizeMD5 }).m_upload_id := by
  unfold endCurrentPart
  rw [if_neg h]
  split <;> exact ⟨rfl, rfl⟩

theorem evInv_endCurrentPart {f : WriteFile} (h : EvInv f) (b : Bool) :
    EvInv (endCurrentPart f b) := by
  by_cases hz : f.cur.length = 0
  · rw [endCurrentPart_zero f b hz]; exact h
  · obtain ⟨he, hu⟩ := endCurrentPart_ev f b hz
    have h1 : EvInv (getUploadID { f with cur := f.cur.finalizeMD5 }) :=
      evInv_getUploadID h
    unfold EvInv at h1 ⊢
    rw [he, hu, beginCount_append, h1]
    have h2 : beginCount [Event.uploadPart f.cur.finalizeMD5.number
        f.cur.finalizeMD5.length (f.cur.finalizeMD5.md5string.getD [])] = 0 := rfl
    rw [h2, Nat.add_zero]

theorem evInv_writeImplLoop (fuel : Nat) :
    ∀ (f : WriteFile) (data : List Nat), EvInv f → EvInv (writeImplLoop fuel f data) := by
  induction fuel with
  | zero => intro f data h; exact h
  | succ n ih =>
    intro f data h
    simp only [writeImplLoop]
    split
    · exact ih _ _ (evInv_endCurrentPart
        (f := { f with cur := f.cur.write (data.take (f.minPartSize - f.cur.length)) })
        h true)
    · exact h

theorem evInv_write {f : WriteFile} (h : EvInv f) (d : List Nat) (o : Int) :
    EvInv (write f d o).1 := by
  unfold write
  split
  · exact h
  · cases hm : f.m_error <;>
      exact evInv_writeImplLoop _ _ _ h

theorem evInv_doFinishUpload {f : WriteFile} (h : EvInv f) (et : Nat → Option Nat) :
    EvInv (doFinishUpload f et).1 := by
  unfold doFinishUpload
  split
  · unfold EvInv at h ⊢
    show beginCount (f.events ++ [Event.writeEntireFile _ _]) = _
    rw [beginCount_append, h]
    have h2 : beginCount [Event.writeEntireFile f.cur.finalizeMD5.length
        (f.cur.finalizeMD5.md5string.getD [])] = 0 := rfl
    rw [h2, Nat.add_zero]
  · cases hh : ((partsList (endCurrentPart f false)).filterMap
        (fun p => if 0 < p.length then et p.number else none)).head? with
    | some e => exact evInv_endCurrentPart h false
    | none =>
      have h1 := evInv_endCurrentPart h false
      unfold EvInv at h1 ⊢
      show beginCount ((endCurrentPart f false).events ++ [Event.finishMPU _]) = _
      rw [beginCount_append, h1]
      have h2 : ∀ m : List Nat, beginCount [Event.finishMPU m] = 0 := fun _ => rfl
      rw [h2, Nat.add_zero]

theorem evInv_sync {f : WriteFile} (h : EvInv f) (et : Nat → Option Nat) :
    EvInv (sync f et).1 := by
  unfold sync
  split
  · exact h
  · cases hm : f.m_finished with
    | some r => exact h
    | none => exact evInv_doFinishUpload h et

theorem evInv_poison {f : WriteFile} (h : EvInv f) (e : Nat) :
    EvInv (poison f e) := by
  unfold poison
  cases hm : f.m_error <;> exact h

theorem evInv_runOps : ∀ (ops : List Op) (f : WriteFile), EvInv f →
    EvInv (runOps f ops) := by
  intro ops
  induction ops with
  | nil => intro f h; exact h
  | cons o os ih =>
    intro f h
    rw [runOps]
    refine ih _ ?_
    cases o with
    | wr d off => exact evInv_write h d off
    | snc g => exact evInv_sync h g
    | psn e => exact evInv_poison h e

/-- C7: across every sequence of public operations on a fresh session —
writes at any offsets, syncs under any remote outcomes, upload failures
— the session issues at most one `beginMultiPartUpload` call: the upload
id is created at most once and every part upload shares it. -/
theorem upload_id_created_at_most_once (M : Nat) (ops : List Op) :
    beginCount (runOps (mkFile M) ops).events ≤ 1 := by
  have h0 : EvInv (mkFile M) := by
    unfold EvInv mkFile beginCount
    rfl
  have h := evInv_runOps ops (mkFile M) h0
  unfold EvInv at h
  rw [h]
  split <;> omega

/-- C1: for every contiguous write sequence crossing at least one
minimum-part-size boundary (total `T ≥ M`), the number of non-empty
parts produced is `⌈T / M⌉`, every part other than the last — in
particular every non-final non-empty part — has length at least `M`,
and the manifest passed to `finishMultiPartUpload` by `sync` is exactly
the part numbers `1..⌈T/M⌉` in increasing order, the empty trailing
part (present exactly when `M` divides `T`) being omitted. -/
theorem multipart_manifest_correct (M : Nat) (ws : List (List Nat))
    (hM : 0 < M) (hT : M ≤ totalLen ws) :
    ((partsList (runWrites (mkFile M) ws)).filter (fun p => 0 < p.length)).length
      = (totalLen ws + M - 1) / M ∧
    (∀ p ∈ (partsList (runWrites (mkFile M) ws)).dropLast, M ≤ p.length) ∧
    (∃ pre, (sync (runWrites (mkFile M) ws) (fun _ => none)).1.events
      = pre ++ [Event.finishMPU (List.range' 1 ((totalLen ws + M - 1) / M))]) := by
  obtain ⟨hC, hcur, herr, hfin⟩ := runWrites_good M ws hM
  have hq1 : 1 ≤ totalLen ws / M := (Nat.one_le_div_iff hM).mpr hT
  have hprevmem : ∀ p ∈ (runWrites (mkFile M) ws).prev, p.length = M := by
    intro p hp
    have hmem := List.mem_map_of_mem Part.length hp
    rw [hC.prevLens] at hmem
    exact List.eq_of_mem_replicate hmem
  have hceil := ceil_div_eq (T := totalLen ws) hM
  have hfiltprev : (runWrites (mkFile M) ws).prev.reverse.filter (fun p => 0 < p.length)
      = (runWrites (mkFile M) ws).prev.reverse := by
    apply List.filter_eq_self.mpr
    intro a ha
    have haM : a.length = M := hprevmem a (List.mem_reverse.mp ha)
    simp [haM, hM]
  have hfl : (partsList (runWrites (mkFile M) ws)).filter (fun p => 0 < p.length)
      = (runWrites (mkFile M) ws).prev.reverse ++
        (if totalLen ws % M = 0 then [] else [(runWrites (mkFile M) ws).cur]) := by
    unfold partsList
    rw [List.filter_append, hfiltprev]
    congr 1
    by_cases hr : totalLen ws % M = 0
    · rw [if_pos hr]
      simp [List.filter_cons, hC.curLen, hr]
    · rw [if_neg hr]
      simp [List.filter_cons, hC.curLen, Nat.pos_of_ne_zero hr]
  refine ⟨?_, ?_, ?_⟩
  · rw [hfl, List.length_append, List.length_reverse, hC.prev_length, hceil]
    by_cases hr : totalLen ws % M = 0
    · rw [if_pos hr, if_pos hr]; rfl
    · rw [if_neg hr, if_neg hr]; rfl
  · intro p hp
    unfold partsList at hp
    rw [List.dropLast_concat] at hp
    exact (hprevmem p (List.mem_reverse.mp hp)).ge
  · have hc0 : ¬ (runWrites (mkFile M) ws).m_cursor = 0 := by
      rw [hcur]
      have h1 : totalLen ws ≠ 0 := by omega
      exact_mod_cast h1
    have hprevne : ¬ (runWrites (mkFile M) ws).prev.length = 0 := by
      rw [hC.prev_length]; omega
    have hmanifest : ((partsList (endCurrentPart (runWrites (mkFile M) ws) false)).filter
        (fun p => 0 < p.length)).map Part.number
        = List.range' 1 ((totalLen ws + M - 1) / M) := by
      by_cases hr : totalLen ws % M = 0
      · rw [endCurrentPart_zero _ false (by rw [hC.curLen]; exact hr)]
        rw [hfl, if_pos hr, List.append_nil, hC.prevNums, hceil, if_pos hr, Nat.add_zero]
      · have hzne : (runWrites (mkFile M) ws).cur.length ≠ 0 := by
          rw [hC.curLen]; exact hr
        obtain ⟨hp1, hp2⟩ := endCurrentPart_false_parts _ hzne
        unfold partsList
        rw [hp1, hp2, List.filter_append, hfiltprev]
        have hcurkeep : [(runWrites (mkFile M) ws).cur.finalizeMD5].filter
            (fun p => 0 < p.length) = [(runWrites (mkFile M) ws).cur.finalizeMD5] := by
          simp [List.filter_cons, Part.finalizeMD5_length, hC.curLen,
            Nat.pos_of_ne_zero hr]
        rw [hcurkeep, List.map_append, hC.prevNums]
        simp only [List.map_cons, List.map_nil, Part.finalizeMD5_number, hC.curNum]
        rw [hceil, if_neg hr, List.range'_concat]
        simp [Nat.add_comm]
    have hsync : sync (runWrites (mkFile M) ws) (fun _ => none)
        = ({ (doFinishUpload (runWrites (mkFile M) ws) (fun _ => none)).1 with
            m_finished := some (doFinishUpload (runWrites (mkFile M) ws)
              (fun _ => none)).2,
            m_cursor := -1 },
           (doFinishUpload (runWrites (mkFile M) ws) (fun _ => none)).2) := by
      unfold sync
      rw [if_neg hc0, hfin]
    have hdf : doFinishUpload (runWrites (mkFile M) ws) (fun _ => none)
        = ({ endCurrentPart (runWrites (mkFile M) ws) false with
            events := (endCurrentPart (runWrites (mkFile M) ws) false).events ++
              [Event.finishMPU (((partsList (endCurrentPart (runWrites (mkFile M) ws)
                false)).filter (fun p => 0 < p.length)).map Part.number)] },
           Except.ok ()) := by
      unfold doFinishUpload
      rw [if_neg hprevne]
      have hfm0 : ((partsList (endCurrentPart (runWrites (mkFile M) ws) false)).filterMap
          (fun p => if 0 < p.length then (none : Option Nat) else none)) = [] :=
        List.filterMap_eq_nil_iff.mpr (fun a _ => ite_self none)
      rw [hfm0]
      rfl
    rw [hmanifest] at hdf
    exact ⟨(endCurrentPart (runWrites (mkFile M) ws) false).events, by rw [hsync, hdf]⟩

/-- C1 witness: minimum part size 2 and a single 5-byte write: three
non-empty parts, closed parts of length 2, manifest `[1, 2, 3]`. -/
theorem multipart_manifest_correct_witness :
    ((partsList (runWrites (mkFile 2) [[1, 2, 3, 4, 5]])).filter
        (fun p => 0 < p.length)).length = (totalLen [[1, 2, 3, 4, 5]] + 2 - 1) / 2 ∧
    (∀ p ∈ (partsList (runWrites (mkFile 2) [[1, 2, 3, 4, 5]])).dropLast,
        2 ≤ p.length) ∧
    (∃ pre, (sync (runWrites (mkFile 2) [[1, 2, 3, 4, 5]]) (fun _ => none)).1.events
      = pre ++ [Event.finishMPU
          (List.range' 1 ((totalLen [[1, 2, 3, 4, 5]] + 2 - 1) / 2))]) :=
  multipart_manifest_correct 2 [[1, 2, 3, 4, 5]] (by decide) (by decide)

end BlobStore
